import Mathlib

/-!
Verification development for the massgrave markdown scraper (src/scraper.py).

The Python source works on ordinary strings with `re` pattern matching.  We
embed it shallowly: strings become `List Char` processed by executable Lean
functions, and each regular expression used by the source is compiled by hand
into a deterministic matcher that reproduces the leftmost-match / greedy /
lazy backtracking semantics of the concrete pattern.  Fallible lookups return
`Option`; the HTTP layer is abstracted as a function returning `Except`.
-/

/-- Python `\s` (ASCII range): space, tab, newline, carriage return,
vertical tab, form feed.  Used by `str.strip()` and the `\s` atoms of the
source's regexes. -/
def isPySpace (c : Char) : Bool :=
  c == ' ' || c == '\t' || c == '\n' || c == '\r' || c == '\x0b' || c == '\x0c'

/-- Python `str.strip()` on a list of characters. -/
def stripChars (l : List Char) : List Char :=
  ((l.dropWhile isPySpace).reverse.dropWhile isPySpace).reverse

/-- Python `str.strip()`. -/
def pyStrip (s : String) : String :=
  (stripChars s.data).asString

/-- Python `str.split(sep)` for a one-character separator. -/
def splitOnChar (sep : Char) : List Char → List (List Char)
  | [] => [[]]
  | c :: t =>
    match splitOnChar sep t with
    | [] => [[]]
    | h :: r => if c == sep then [] :: h :: r else (c :: h) :: r

/-- Python substring containment `needle in hay` on character lists. -/
def subList (needle : List Char) : List Char → Bool
  | [] => needle.isEmpty
  | c :: t => needle.isPrefixOf (c :: t) || subList needle t

/-- Python `needle in hay` on strings. -/
def strIn (needle hay : String) : Bool :=
  subList needle.data hay.data

/-- One row extracted from a markdown download table
(`extract_markdown_table_data` output element). -/
structure DownloadRecord where
  language : String
  architecture : String
  filename : String
  url : String
  deriving DecidableEq

/-- One version section extracted from a document
(`parse_windows_versions` / `parse_office_sections` output element). -/
structure VersionRecord where
  version_name : String
  version_label : String
  build : String
  downloads : List DownloadRecord
  deriving DecidableEq

/-- The top-level JSON artifact built by the orchestrator.  Python dicts are
modelled as insertion-ordered association lists. -/
structure Catalog where
  last_updated : String
  source : String
  windows_versions : List (String × List VersionRecord)
  office_versions : List (String × List VersionRecord)
  deriving DecidableEq

/-- Attempt to match the regex `\[([^\]]+)\]\(([^\)]+)\)` at the start of the
input, returning the two capture groups.  Both character classes are greedy
but forced (each must stop at the first excluded character), so the matcher
is deterministic. -/
def linkMatchAt : List Char → Option (List Char × List Char)
  | '[' :: rest =>
    let t := rest.takeWhile (fun c => c != ']')
    if t.isEmpty then none
    else
      match rest.drop t.length with
      | ']' :: '(' :: rest2 =>
        let u := rest2.takeWhile (fun c => c != ')')
        if u.isEmpty then none
        else
          match rest2.drop u.length with
          | ')' :: _ => some (t, u)
          | _ => none
      | _ => none
  | _ => none

/-- `re.search(r'\[([^\]]+)\]\(([^\)]+)\)', s)`: first position at which the
link pattern matches. -/
def findLink : List Char → Option (List Char × List Char)
  | [] => none
  | c :: t =>
    match linkMatchAt (c :: t) with
    | some r => some r
    | none => findLink t

/-- Loop body of `extract_markdown_table_data`: skip separator lines
(containing `|:--`) and the header line; for a line containing a pipe and an
architecture token, split on pipes, strip cells, drop empties, and if at
least three cells remain and the third contains an inline link, append one
record. -/
def tableStep (results : List DownloadRecord) (line : List Char) : List DownloadRecord :=
  if subList ("|:--".data) line || ("| Language".data).isPrefixOf (stripChars line) then
    results
  else if subList ("|".data) line &&
      (subList ("x64".data) line || subList ("x86".data) line || subList ("ARM64".data) line) then
    let cells := ((splitOnChar '|' line).map stripChars).filter (fun c => !c.isEmpty)
    if 3 ≤ cells.length then
      match findLink (cells.getD 2 []) with
      | some tu =>
        results ++ [{ language := (cells.getD 0 []).asString,
                      architecture := (cells.getD 1 []).asString,
                      filename := tu.1.asString,
                      url := tu.2.asString }]
      | none => results
    else results
  else results

/-- `extract_markdown_table_data` from src/scraper.py: split the block into
lines and run the row loop. -/
def extract_markdown_table_data (table_content : String) : List DownloadRecord :=
  (splitOnChar '\n' table_content.data).foldl tableStep []

/-- Claim-side restatement of the per-line behaviour of the Table Extractor
(C1): the records a single line contributes, phrased as one guard — not a
separator line, not the header line, contains a pipe, contains an
architecture token, at least three non-empty stripped cells, third cell
contains an inline link. -/
def tableRowSpec (line : List Char) : List DownloadRecord :=
  if !(subList ("|:--".data) line) && !(("| Language".data).isPrefixOf (stripChars line)) &&
      subList ("|".data) line &&
      (subList ("x64".data) line || subList ("x86".data) line || subList ("ARM64".data) line) then
    let cells := ((splitOnChar '|' line).map stripChars).filter (fun c => !c.isEmpty)
    if 3 ≤ cells.length then
      match findLink (cells.getD 2 []) with
      | some tu =>
        [{ language := (cells.getD 0 []).asString,
           architecture := (cells.getD 1 []).asString,
           filename := tu.1.asString,
           url := tu.2.asString }]
      | none => []
    else []
  else []

/-- Case-insensitive literal match (the effect of `re.IGNORECASE` on the
literal `Build`): drop `pat` from the front of the input comparing characters
modulo `Char.toLower`. -/
def ciDrop : List Char → List Char → Option (List Char)
  | [], s => some s
  | _ :: _, [] => none
  | p :: pt, c :: ct => if p.toLower == c.toLower then ciDrop pt ct else none

/-- The `(?:\.\d+)*` tail of the build-number regex: greedily consume groups
of a period followed by one or more digits.  `fuel` bounds the recursion (each
step consumes at least two characters). -/
def dotGroups : Nat → List Char → List Char
  | 0, _ => []
  | fuel + 1, s =>
    match s with
    | '.' :: rest =>
      let d := rest.takeWhile Char.isDigit
      if d.isEmpty then []
      else '.' :: (d ++ dotGroups fuel (rest.drop d.length))
    | _ => []

/-- Attempt to match `Build\s*-\s*(\d+(?:\.\d+)*)` (IGNORECASE) at the start
of the input, returning capture group 1.  Every quantifier in this pattern is
forced (`\s*` is followed by a non-space atom, `\d+` by a non-digit atom), so
the matcher is deterministic. -/
def buildMatchAt (s : List Char) : Option String :=
  match ciDrop ("build".data) s with
  | none => none
  | some s1 =>
    match (s1.dropWhile isPySpace) with
    | '-' :: s3 =>
      let s4 := s3.dropWhile isPySpace
      let d := s4.takeWhile Char.isDigit
      if d.isEmpty then none
      else some ((d ++ dotGroups s4.length (s4.drop d.length)).asString)
    | _ => none

/-- `re.search` scan for the build-number pattern: try each position from the
left, first success wins. -/
def findBuild : List Char → Option String
  | [] => none
  | c :: t =>
    match buildMatchAt (c :: t) with
    | some r => some r
    | none => findBuild t

/-- `extract_build_number` from src/scraper.py. -/
def extract_build_number (content : String) : String :=
  match findBuild content.data with
  | some b => b
  | none => "Unknown"

/-- Drop an exact literal from the front of the input, or fail. -/
def dropLit (lit : List Char) (s : List Char) : Option (List Char) :=
  if lit.isPrefixOf s then some (s.drop lit.length) else none

/-- Greedy `[^stop]*` followed by a continuation: try every split point,
longest consumed run first, and return the first continuation that succeeds.
This reproduces regex backtracking for a greedy negated character class. -/
def tryGreedyStar (stop : Char) (s : List Char) (k : List Char → Option α) : Option α :=
  let n := (s.takeWhile (fun c => c != stop)).length
  (List.range (n + 1)).findSome? (fun d => k (s.drop (n - d)))

/-- `([^stop]+)` followed by the literal `stop` character: the group runs to
the first occurrence of `stop` and must be non-empty (forced, deterministic).
Returns (group, input after the closing character). -/
def takeGroupUntil (stop : Char) (s : List Char) : Option (List Char × List Char) :=
  let g := s.takeWhile (fun c => c != stop)
  if g.isEmpty then none
  else
    match s.drop g.length with
    | _ :: rest => some (g, rest)
    | [] => none

/-- Lazy `(.*?)` (DOTALL) up to the first occurrence of a literal: split the
input at the first occurrence of `needle`, returning the part before it and
the part after it. -/
def splitFirst (needle : List Char) : List Char → Option (List Char × List Char)
  | [] => if needle.isEmpty then some ([], []) else none
  | c :: t =>
    if needle.isPrefixOf (c :: t) then some ([], (c :: t).drop needle.length)
    else
      match splitFirst needle t with
      | some pq => some (c :: pq.1, pq.2)
      | none => none

/-- Attempt to match
`<TabItem[^>]*value="([^"]+)"[^>]*label="([^"]+)"[^>]*>(.*?)</TabItem>`
(DOTALL) at the start of the input.  Returns (value, label, inner content,
input after the match). -/
def tabMatchAt (s : List Char) : Option (String × String × String × List Char) :=
  (dropLit ("<TabItem".data) s).bind (fun s1 =>
    tryGreedyStar '>' s1 (fun s2 =>
      (dropLit ("value=\"".data) s2).bind (fun s3 =>
        (takeGroupUntil '"' s3).bind (fun vs4 =>
          tryGreedyStar '>' vs4.2 (fun s5 =>
            (dropLit ("label=\"".data) s5).bind (fun s6 =>
              (takeGroupUntil '"' s6).bind (fun ls7 =>
                tryGreedyStar '>' ls7.2 (fun s8 =>
                  match s8 with
                  | '>' :: s9 =>
                    (splitFirst ("</TabItem>".data) s9).map (fun ir =>
                      (vs4.1.asString, ls7.1.asString, ir.1.asString, ir.2))
                  | _ => none))))))))

/-- `re.findall` scan for the TabItem pattern: try to match at each position
from the left; after a match, continue scanning at the end of the match
(non-overlapping).  `fuel` bounds the recursion and is instantiated with the
input length (every step consumes at least one character). -/
def findTabsAux : Nat → List Char → List (String × String × String)
  | 0, _ => []
  | _, [] => []
  | fuel + 1, c :: t =>
    match tabMatchAt (c :: t) with
    | some r => (r.1, r.2.1, r.2.2.1) :: findTabsAux fuel r.2.2.2
    | none => findTabsAux fuel t

/-- `extract_tabitems_with_content` from src/scraper.py: all TabItem blocks
of a section as (value, label, inner content) triples. -/
def extract_tabitems_with_content (sectionText : String) : List (String × String × String) :=
  findTabsAux sectionText.data.length sectionText.data

/-- Attempt to match `<TabItem[^>]*value="V"[^>]*>(.*?)</TabItem>` (DOTALL,
`V` a literal produced by `re.escape`) at the start of the input, returning
the inner content. -/
def valueMatchAt (v : List Char) (s : List Char) : Option String :=
  (dropLit ("<TabItem".data) s).bind (fun s1 =>
    tryGreedyStar '>' s1 (fun s2 =>
      (dropLit (("value=\"".data) ++ v ++ ['"']) s2).bind (fun s3 =>
        tryGreedyStar '>' s3 (fun s4 =>
          match s4 with
          | '>' :: s5 =>
            (splitFirst ("</TabItem>".data) s5).map (fun ir => ir.1.asString)
          | _ => none))))

/-- `re.search` scan for the per-value TabItem pattern (first match wins). -/
def valueSearchAux (v : List Char) : List Char → Option String
  | [] => none
  | c :: t =>
    match valueMatchAt v (c :: t) with
    | some r => some r
    | none => valueSearchAux v t

/-- The `re.search(pattern, content)` call of `parse_windows_versions` that
looks up a tab's inner content by its `value` attribute. -/
def valueSearch (v : String) (content : String) : Option String :=
  valueSearchAux v.data content.data

/-- Attempt to match `^##\s+(.+?)\s*$` (MULTILINE) at the start of the input
(the caller guarantees the position is a line start).  Returns (capture group
1, match length).  The quantifiers are explored in regex backtracking order:
`\s+` greedy (longest run first), `(.+?)` lazy (shortest first), `\s*` greedy;
`$` matches at the end of input or before a newline.  Note that `\s+` may
consume newlines while `.` may not: this is exactly Python's behaviour. -/
def headMatchAt (s : List Char) : Option (List Char × Nat) :=
  match s with
  | c1 :: c2 :: rest =>
    if c1 == '#' && c2 == '#' then
      let w := (rest.takeWhile isPySpace).length
      if w = 0 then none
      else
        (List.range w).findSome? (fun dk =>
          let k := w - dk
          let p := rest.drop k
          let m := (p.takeWhile (fun c => c != '\n')).length
          (List.range m).findSome? (fun dm =>
            let g := p.take (dm + 1)
            let q := p.drop (dm + 1)
            let v := (q.takeWhile isPySpace).length
            (List.range (v + 1)).findSome? (fun dv =>
              let r := q.drop (v - dv)
              if r.isEmpty || r.head? == some '\n' then
                some (g, 2 + k + (dm + 1) + (v - dv))
              else none)))
    else none
  | _ => none

/-- Attempt to match `^##\s+(Office\s+\d{4})\s*$` (MULTILINE) at the start of
the input (at a line start).  Returns (capture group 1, match length). -/
def officeHeadMatchAt (s : List Char) : Option (List Char × Nat) :=
  match s with
  | c1 :: c2 :: rest =>
    if c1 == '#' && c2 == '#' then
      let w := (rest.takeWhile isPySpace).length
      if w = 0 then none
      else
        (List.range w).findSome? (fun dk =>
          let k := w - dk
          let p := rest.drop k
          if ("Office".data).isPrefixOf p then
            let p1 := p.drop 6
            let w2 := (p1.takeWhile isPySpace).length
            if w2 = 0 then none
            else
              (List.range w2).findSome? (fun dk2 =>
                let k2 := w2 - dk2
                let p2 := p1.drop k2
                let ds := p2.take 4
                if ds.length = 4 ∧ ds.all Char.isDigit then
                  let q := p2.drop 4
                  let v := (q.takeWhile isPySpace).length
                  (List.range (v + 1)).findSome? (fun dv =>
                    let r := q.drop (v - dv)
                    if r.isEmpty || r.head? == some '\n' then
                      some (("Office".data) ++ p1.take k2 ++ ds,
                            2 + k + 6 + k2 + 4 + (v - dv))
                    else none)
                else none)
          else none)
    else none
  | _ => none

/-- `re.finditer` scan for a MULTILINE `^`-anchored pattern: try the matcher
at every line-start position; after a match continue at the match end
(non-overlapping).  Results are (capture group 1, match start, match end).
`ls` records whether the current position is a line start; `fuel` bounds
recursion and is instantiated with the input length. -/
def scanMatches (matcher : List Char → Option (List Char × Nat)) :
    Nat → List Char → Nat → Bool → List (List Char × Nat × Nat)
  | 0, _, _, _ => []
  | _, [], _, _ => []
  | fuel + 1, c :: t, pos, ls =>
    match (if ls then matcher (c :: t) else none) with
    | some gl =>
      let nextLs := ((c :: t).take gl.2).getLast? == some '\n'
      (gl.1, pos, pos + gl.2) :: scanMatches matcher fuel ((c :: t).drop gl.2) (pos + gl.2) nextLs
    | none => scanMatches matcher fuel t (pos + 1) (c == '\n')

/-- From the heading matches of a document, build the per-heading sections:
each section is `content[match.end() : next match.start()]` (or to the end of
the document for the last heading), paired with the heading's capture group. -/
def sectionsFrom (cs : List Char) : List (List Char × Nat × Nat) → List (List Char × List Char)
  | [] => []
  | h :: rest =>
    let stop := match rest with
      | [] => cs.length
      | h2 :: _ => h2.2.1
    (h.1, (cs.drop h.2.2).take (stop - h.2.2)) :: sectionsFrom cs rest

/-- The heading matches of `parse_headings_versions`
(`re.finditer(r'(?m)^##\s+(.+?)\s*$', content)`). -/
def findHeadings (content : String) : List (List Char × Nat × Nat) :=
  scanMatches headMatchAt content.data.length content.data 0 true

/-- Loop body of `parse_headings_versions`: a heading section contributes a
VersionRecord exactly when its table extraction is non-empty; the stripped
heading text is used as both name and label. -/
def headingSectionStep (versions : List VersionRecord) (ts : List Char × List Char) :
    List VersionRecord :=
  let title := (stripChars ts.1).asString
  let downloads := extract_markdown_table_data ts.2.asString
  if downloads.isEmpty then versions
  else versions ++ [{ version_name := title, version_label := title,
                      build := extract_build_number ts.2.asString,
                      downloads := downloads }]

/-- `parse_headings_versions` from src/scraper.py: one VersionRecord per H2
heading section containing at least one table row. -/
def parse_headings_versions (content : String) : List VersionRecord :=
  (sectionsFrom content.data (findHeadings content)).foldl headingSectionStep []

/-- Loop body of the tab-block strategy of `parse_windows_versions`: skip
"Other Versions" tabs, look the tab's content up again by its value attribute
with `re.search`, and emit a VersionRecord when the looked-up content yields
at least one download row. -/
def windowsTabStep (content : String) (versions : List VersionRecord)
    (vl : String × String × String) : List VersionRecord :=
  if strIn ("Other Versions") vl.1 || strIn ("Other Versions") vl.2.1 then versions
  else
    match valueSearch vl.1 content with
    | none => versions
    | some tab_content =>
      let downloads := extract_markdown_table_data tab_content
      if downloads.isEmpty then versions
      else versions ++ [{ version_name := vl.1, version_label := vl.2.1,
                          build := extract_build_number tab_content,
                          downloads := downloads }]

/-- The tab-block strategy of `parse_windows_versions`: fold the tab loop
over the findall triples. -/
def windows_tab_versions (content : String) : List VersionRecord :=
  (extract_tabitems_with_content content).foldl (windowsTabStep content) []

/-- `parse_windows_versions` from src/scraper.py: tab-block strategy first,
falling back to heading sections when it yields nothing. -/
def parse_windows_versions (content : String) : List VersionRecord :=
  let versions := windows_tab_versions content
  if versions.isEmpty then parse_headings_versions content else versions

/-- Python dict assignment `d[k] = v` on an insertion-ordered association
list: overwrite in place if the key exists, else append. -/
def dictSet (d : List (String × α)) (k : String) (v : α) : List (String × α) :=
  match d with
  | [] => [(k, v)]
  | e :: t => if e.1 == k then (k, v) :: t else e :: dictSet t k v

/-- The Office heading matches of `parse_office_sections`
(`re.finditer(r'(?m)^##\s+(Office\s+\d{4})\s*$', content)`). -/
def findOfficeHeadings (content : String) : List (List Char × Nat × Nat) :=
  scanMatches officeHeadMatchAt content.data.length content.data 0 true

/-- The per-heading sections of the Office document: (capture group 1,
section text between this match's end and the next match's start). -/
def officeSections (content : String) : List (List Char × List Char) :=
  sectionsFrom content.data (findOfficeHeadings content)

/-- Loop body of the per-section tab loop of `parse_office_sections`: a tab
contributes a VersionRecord exactly when its own inner content yields at
least one download row. -/
def officeTabStep (versions : List VersionRecord) (ti : String × String × String) :
    List VersionRecord :=
  let downloads := extract_markdown_table_data ti.2.2
  if downloads.isEmpty then versions
  else versions ++ [{ version_name := ti.1, version_label := ti.2.1,
                      build := extract_build_number ti.2.2,
                      downloads := downloads }]

/-- The inner loop of `parse_office_sections`: apply the tab-block strategy
(via `extract_tabitems_with_content`) to one section. -/
def officeTabVersions (sectionText : String) : List VersionRecord :=
  (extract_tabitems_with_content sectionText).foldl officeTabStep []

/-- Loop body of the per-heading loop of `parse_office_sections`: store a
section's non-empty version list under the stripped heading text. -/
def officeSectionStep (office_data : List (String × List VersionRecord))
    (cs : List Char × List Char) : List (String × List VersionRecord) :=
  let category := (stripChars cs.1).asString
  let versions := officeTabVersions cs.2.asString
  if versions.isEmpty then office_data
  else dictSet office_data category versions

/-- `parse_office_sections` from src/scraper.py: split at `## Office <year>`
headings, apply the tab-block strategy within each section, and store each
non-empty version list under the stripped heading text. -/
def parse_office_sections (content : String) : List (String × List VersionRecord) :=
  (officeSections content).foldl officeSectionStep []

/-- The Windows documents scraped by the orchestrator (`MD_FILES`). -/
def MD_FILES : List String :=
  ["windows_11_links.md", "windows_10_links.md", "windows_7_links.md",
   "windows_8.1_links.md", "windows_arm_links.md", "windows_ltsc_links.md",
   "windows_vista__links.md", "windows_xp_links.md"]

/-- The Office document scraped by the orchestrator (`OFFICE_MD_FILE`). -/
def OFFICE_MD_FILE : String := "office_msi_links.md"

/-- Python `str.replace(old, new)` for a non-empty `old`: replace all
non-overlapping occurrences left to right.  `fuel` bounds the recursion and
is instantiated with the input length. -/
def pyReplaceAux (old new : List Char) : Nat → List Char → List Char
  | 0, s => s
  | fuel + 1, s =>
    if old.isPrefixOf s && !old.isEmpty then
      new ++ pyReplaceAux old new fuel (s.drop old.length)
    else
      match s with
      | [] => []
      | c :: t => c :: pyReplaceAux old new fuel t

/-- Python `str.replace(old, new)` (for the non-empty `old` the source uses). -/
def pyReplace (s old new : String) : String :=
  (pyReplaceAux old.data new.data s.data.length s.data).asString

/-- Python `str.title()` restricted to ASCII: the first letter of each run of
letters is uppercased, subsequent letters lowercased. -/
def pyTitleAux : List Char → Bool → List Char
  | [], _ => []
  | c :: t, prevCased =>
    if c.isAlpha then
      (if prevCased then c.toLower else c.toUpper) :: pyTitleAux t true
    else c :: pyTitleAux t false

/-- Python `str.title()` (ASCII). -/
def pyTitle (s : String) : String :=
  (pyTitleAux s.data false).asString

/-- The category-mapping chain of `scrape_all_windows_versions`: substring
tests against the known markers in order, with the generic string transform
as fallback. -/
def categoryOf (md_file : String) : String :=
  if strIn ("windows_11") md_file then "Windows 11"
  else if strIn ("windows_10") md_file then "Windows 10"
  else if strIn ("windows_7") md_file then "Windows 7"
  else if strIn ("windows_8.1") md_file then "Windows 8.1"
  else if strIn ("windows_arm") md_file then "Windows ARM"
  else if strIn ("windows_ltsc") md_file then "Windows LTSC"
  else if strIn ("windows_vista") md_file then "Windows Vista"
  else if strIn ("windows_xp") md_file then "Windows XP"
  else pyTitle (pyReplace (pyReplace md_file ("_links.md") ("")) ("_") (" "))

/-- One iteration of the per-document loop of `scrape_all_windows_versions`:
on a fetch failure the accumulator is returned unchanged (the `except` block
logs and continues); on success the parsed versions are stored under the
mapped category when non-empty. -/
def windowsFoldStep (fetch : String → Except String String)
    (acc : List (String × List VersionRecord)) (md_file : String) :
    List (String × List VersionRecord) :=
  match fetch md_file with
  | Except.error _ => acc
  | Except.ok content =>
    let versions := parse_windows_versions content
    if versions.isEmpty then acc
    else dictSet acc (categoryOf md_file) versions

/-- `scrape_all_windows_versions` from src/scraper.py.  The fetcher is
abstracted as a function from filename to `Except` (transport failure or
document text); the loop only ever updates the `windows_versions` entry of
the accumulated dict, so the catalog is built as a record whose
`windows_versions` field is the fold over `MD_FILES`.  `now` abstracts the
`datetime.utcnow()` timestamp. -/
def scrape_all_windows_versions (fetch : String → Except String String)
    (now : String) : Catalog :=
  { last_updated := now,
    source := "https://github.com/massgravel/massgrave.dev",
    windows_versions := MD_FILES.foldl (windowsFoldStep fetch) [],
    office_versions := [] }

/-- `scrape_office_versions` from src/scraper.py: fetch and parse the Office
document and merge the result into `office_versions` via `dict.update`; any
failure (and an empty parse) leaves the catalog unchanged. -/
def scrape_office_versions (ofetch : Except String String) (all_data : Catalog) : Catalog :=
  match ofetch with
  | Except.error _ => all_data
  | Except.ok content =>
    let office_map := parse_office_sections content
    if office_map.isEmpty then all_data
    else { all_data with
           office_versions := office_map.foldl (fun acc kv => dictSet acc kv.1 kv.2)
                                all_data.office_versions }

/-- The fetch-and-parse pipeline of `main`: scrape the Windows documents,
then merge the Office document's sections. -/
def run_scraper (fetch : String → Except String String)
    (ofetch : Except String String) (now : String) : Catalog :=
  scrape_office_versions ofetch (scrape_all_windows_versions fetch now)

/-- Shape check for C8: `s` is the literal `Office`, one or more whitespace
characters, then exactly four digits. -/
def isOfficeYearTitle (s : String) : Bool :=
  match dropLit ("Office".data) s.data with
  | none => false
  | some r =>
    let w := r.takeWhile isPySpace
    let d := r.drop w.length
    !w.isEmpty && (d.length == 4) && d.all Char.isDigit

/-- A concrete table row whose second cell is not an architecture token while
the filename cell contains one (exercises C10). -/
def C10ROW : String := "| English | NEON | [setup_x64.iso](https://ex/a.iso) |"

/-- The record the Table Extractor emits for `C10ROW`. -/
def C10REC : DownloadRecord :=
  { language := "English", architecture := "NEON",
    filename := "setup_x64.iso", url := "https://ex/a.iso" }

/-- A concrete block with two Build mentions (exercises C3: only the first
matters). -/
def C3TEXT : String := "OS Build - 26200.6584 then Build - 7601.17514"

/-- A concrete block with no build-number match (exercises C3). -/
def C3NONE : String := "no build token here"

/-- A concrete document with two distinct tab blocks carrying the same value
attribute but different labels, builds and tables (exercises C2). -/
def C2DOC : String :=
  "<TabItem value=\"A\" label=\"L1\">Build - 1.1\n| English | x64 | [f1.iso](https://u/1) |\n</TabItem>\n<TabItem value=\"A\" label=\"L2\">Build - 2.2\n| German | x86 | [f2.iso](https://u/2) |\n</TabItem>"

/-- The inner content of the first tab block of `C2DOC`. -/
def C2INNER1 : String := "Build - 1.1\n| English | x64 | [f1.iso](https://u/1) |\n"

/-- The inner content of the second tab block of `C2DOC`. -/
def C2INNER2 : String := "Build - 2.2\n| German | x86 | [f2.iso](https://u/2) |\n"

/-- Claim-side restatement of the per-section behaviour of the heading
strategy (C4): a section with at least one extracted download row yields
exactly one VersionRecord whose name and label both equal the heading text; a
section with zero rows yields none. -/
def headingSectionSpec (ts : List Char × List Char) : List VersionRecord :=
  let title := (stripChars ts.1).asString
  let downloads := extract_markdown_table_data ts.2.asString
  if downloads = [] then []
  else [{ version_name := title, version_label := title,
          build := extract_build_number ts.2.asString,
          downloads := downloads }]

/-- A concrete document with no tab blocks, one heading section holding a
table row and one without (exercises C4). -/
def C4DOC : String :=
  "intro\n## Sec A\n| English | x64 | [a.iso](https://u/a) |\n## Sec B\nno rows here\n"

/-- A concrete document whose only tab block is an "Other Versions" tab that
contains a valid download table, placed under an H2 heading (exercises C5:
the tab path skips it, so the heading fallback runs over the whole document
and extracts the excluded tab's table). -/
def C5DOC : String :=
  "## Misc\n<TabItem value=\"Other Versions\" label=\"Misc\">\n| English | x64 | [o.iso](https://u/o) |\n</TabItem>\n"

/-- The inner content of the single tab block of `C5DOC`. -/
def C5INNER : String := "\n| English | x64 | [o.iso](https://u/o) |\n"

/-- A concrete document with one ordinary tab block (witness input for the
amended C5). -/
def C5WDOC : String :=
  "<TabItem value=\"X1\" label=\"Lab\">\n| English | x64 | [n.iso](https://u/n) |\n</TabItem>"

/-- The record the tab-block strategy emits for `C5WDOC`. -/
def C5WREC : VersionRecord :=
  ⟨"X1", "Lab", "Unknown", [⟨"English", "x64", "n.iso", "https://u/n"⟩]⟩

/-- A concrete one-tab document (witness input for C6). -/
def C6DOC : String :=
  "<TabItem value=\"V6\" label=\"L6\">\n| English | x64 | [c6.iso](https://u/c6) |\n</TabItem>"

/-- The record the Version Parser emits for `C6DOC`. -/
def C6REC : VersionRecord :=
  ⟨"V6", "L6", "Unknown", [⟨"English", "x64", "c6.iso", "https://u/c6"⟩]⟩

/-- A concrete fetcher that fails on the Windows 11 document and returns an
empty document otherwise (witness input for C7). -/
def C7FETCH (f : String) : Except String String :=
  if f == "windows_11_links.md" then Except.error ("boom") else Except.ok ("")

/-- A concrete Office document with one `## Office 2016` heading and one tab
block (witness input for C8, matching the spec's end-to-end example). -/
def C8DOC : String :=
  "## Office 2016\n<TabItem value=\"2016\" label=\"Office 2016 VL\">\n| English | x64 | [o16.img](https://u/16) |\n</TabItem>\n"

/-- The version list `parse_office_sections` emits for `C8DOC` under the
category "Office 2016". -/
def C8VS : List VersionRecord :=
  [⟨"2016", "Office 2016 VL", "Unknown", [⟨"English", "x64", "o16.img", "https://u/16"⟩]⟩]


theorem foldl_append_bind {α β : Type} (f : List β → α → List β) (g : α → List β)
    (h : ∀ acc x, f acc x = acc ++ g x) (l : List α) (acc : List β) :
    l.foldl f acc = acc ++ l.flatMap g := by
  induction l generalizing acc with
  | nil => simp
  | cons x t ih => simp [List.foldl_cons, h, ih, List.flatMap_cons]

theorem tableStep_eq_append (results : List DownloadRecord) (line : List Char) :
    tableStep results line = results ++ tableRowSpec line := by
  unfold tableStep tableRowSpec
  cases h1 : subList ("|:--".data) line with
  | true => simp [h1]
  | false =>
    cases h2 : ("| Language".data).isPrefixOf (stripChars line) with
    | true => simp [h1, h2]
    | false =>
      cases h3 : subList ("|".data) line with
      | false => simp [h1, h2, h3]
      | true =>
        cases h4 : (subList ("x64".data) line || subList ("x86".data) line ||
            subList ("ARM64".data) line) with
        | false => simp [h1, h2, h3, h4]
        | true =>
          simp only [h1, h2, h3, h4, Bool.false_or, Bool.or_false, Bool.true_or,
            Bool.or_true, Bool.not_false, Bool.true_and, Bool.and_true, Bool.and_self,
            ite_true, ite_false, if_pos, Bool.false_eq_true, Bool.true_eq_false]
          by_cases hl : 3 ≤ (((splitOnChar '|' line).map stripChars).filter
              (fun c => !c.isEmpty)).length
          · rw [if_pos hl, if_pos hl]
            cases hfl : findLink ((((splitOnChar '|' line).map stripChars).filter
                (fun c => !c.isEmpty)).getD 2 []) <;> simp [hfl]
          · rw [if_neg hl, if_neg hl]
            simp

theorem extract_rows (tc : String) :
    extract_markdown_table_data tc = (splitOnChar '\n' tc.data).flatMap tableRowSpec := by
  unfold extract_markdown_table_data
  rw [foldl_append_bind tableStep tableRowSpec tableStep_eq_append]
  simp

/-- Claim C1: for every line of the input block that is not a separator line
and not the header line, contains a pipe character, contains at least one of
the tokens x64 / x86 / ARM64, has at least 3 non-empty trimmed cells after
splitting on pipes, and whose third non-empty cell contains an inline link,
the Table Extractor emits exactly one DownloadRecord with language = cell 0,
architecture = cell 1, filename = link text, url = link target, in row order;
a line failing any of these conditions contributes no record.  Formally the
extractor equals the per-line contribution `tableRowSpec` (which is the one
guard and emits exactly one record or none) flat-mapped over the lines in
order. -/
theorem table_extractor_c1 (tc : String) :
    extract_markdown_table_data tc = (splitOnChar '\n' tc.data).flatMap tableRowSpec :=
  extract_rows tc

theorem mem_tableRowSpec_architecture {r : DownloadRecord} {line : List Char}
    (hr : r ∈ tableRowSpec line) :
    r.architecture = ((((splitOnChar '|' line).map stripChars).filter
      (fun c => !c.isEmpty)).getD 1 []).asString := by
  simp only [tableRowSpec] at hr
  split at hr
  · split at hr
    · split at hr
      · simp only [List.mem_singleton] at hr
        subst hr
        rfl
      · simp at hr
    · simp at hr
  · simp at hr

/-- Claim C10 (implicit): the architecture field of every emitted
DownloadRecord is the verbatim trimmed second non-empty cell of its row and
is never checked against the architecture tokens; a row qualifies whenever a
token appears anywhere in the line, so there are rows whose emitted
architecture contains no architecture token (witnessed by `C10ROW`, whose
second cell is "NEON" while "x64" only occurs in the filename cell). -/
theorem arch_unvalidated_c10 (tc : String) (r : DownloadRecord)
    (h : r ∈ extract_markdown_table_data tc) :
    (∃ line ∈ splitOnChar '\n' tc.data,
        r.architecture = ((((splitOnChar '|' line).map stripChars).filter
          (fun c => !c.isEmpty)).getD 1 []).asString)
    ∧ extract_markdown_table_data C10ROW = [C10REC]
    ∧ strIn ("x64") (C10REC.architecture) = false
    ∧ strIn ("x86") (C10REC.architecture) = false
    ∧ strIn ("ARM64") (C10REC.architecture) = false := by
  refine ⟨?_, by decide, by decide, by decide, by decide⟩
  rw [extract_rows] at h
  rcases List.mem_flatMap.mp h with ⟨line, hline, hr⟩
  exact ⟨line, hline, mem_tableRowSpec_architecture hr⟩

/-- Witness for C10 at the concrete row `C10ROW`. -/
theorem arch_unvalidated_c10_w :
    (∃ line ∈ splitOnChar '\n' C10ROW.data,
        C10REC.architecture = ((((splitOnChar '|' line).map stripChars).filter
          (fun c => !c.isEmpty)).getD 1 []).asString)
    ∧ extract_markdown_table_data C10ROW = [C10REC]
    ∧ strIn ("x64") (C10REC.architecture) = false
    ∧ strIn ("x86") (C10REC.architecture) = false
    ∧ strIn ("ARM64") (C10REC.architecture) = false :=
  arch_unvalidated_c10 C10ROW C10REC (by decide)

theorem buildMatchAt_nil : buildMatchAt [] = none := rfl

theorem findBuild_eq_none (l : List Char)
    (h : ∀ i, i ≤ l.length → buildMatchAt (l.drop i) = none) : findBuild l = none := by
  induction l with
  | nil => rfl
  | cons c t ih =>
    have h0 := h 0 (Nat.zero_le _)
    rw [List.drop_zero] at h0
    unfold findBuild
    rw [h0]
    exact ih (fun i hi => by
      have := h (i + 1) (Nat.succ_le_succ hi)
      simpa [List.drop_succ_cons] using this)

theorem findBuild_first (l : List Char) (i : Nat) (tok : String)
    (hm : buildMatchAt (l.drop i) = some tok)
    (hfst : ∀ j, j < i → buildMatchAt (l.drop j) = none) :
    findBuild l = some tok := by
  induction l generalizing i with
  | nil =>
    rw [List.drop_nil] at hm
    simp [buildMatchAt_nil] at hm
  | cons c t ih =>
    cases i with
    | zero =>
      rw [List.drop_zero] at hm
      unfold findBuild
      rw [hm]
    | succ n =>
      have h0 := hfst 0 (Nat.succ_pos n)
      rw [List.drop_zero] at h0
      unfold findBuild
      rw [h0]
      exact ih n (by simpa [List.drop_succ_cons] using hm) (fun j hj => by
        have := hfst (j + 1) (Nat.succ_lt_succ hj)
        simpa [List.drop_succ_cons] using this)

/-- Claim C3: the Build Extractor returns the numeric token of the first
(leftmost) substring matching `Build` (case-insensitive), optional
whitespace, a dash, optional whitespace, then period-separated digit groups
(`buildMatchAt` is that pattern anchored at one position); if no position
matches, it returns the literal "Unknown".  Later Build mentions never affect
the result, since the result is determined by the least matching position. -/
theorem build_extractor_c3 (content : String) :
    ((∀ i, i ≤ content.data.length → buildMatchAt (content.data.drop i) = none) →
        extract_build_number content = "Unknown")
    ∧ (∀ i tok, buildMatchAt (content.data.drop i) = some tok →
        (∀ j, j < i → buildMatchAt (content.data.drop j) = none) →
        extract_build_number content = tok) := by
  constructor
  · intro h
    unfold extract_build_number
    rw [findBuild_eq_none content.data h]
  · intro i tok hm hfst
    unfold extract_build_number
    rw [findBuild_first content.data i tok hm hfst]

/-- Witness for C3: the first Build mention of `C3TEXT` wins, and a block
with no match yields "Unknown". -/
theorem build_extractor_c3_w :
    extract_build_number C3TEXT = "26200.6584" ∧ extract_build_number C3NONE = "Unknown" :=
  ⟨(build_extractor_c3 C3TEXT).2 3 ("26200.6584") (by decide) (by decide),
   (build_extractor_c3 C3NONE).1 (by decide)⟩

set_option maxRecDepth 100000 in
/-- Claim C2 (failing input): in `C2DOC` the two tab blocks share the value
"A".  The findall pass yields both triples with their own inner contents, but
the per-tab `re.search` lookup by value returns the first block's content for
both iterations, so the VersionRecord emitted for the second tab (label "L2")
carries the first tab's build "1.1" and the first tab's download row, even
though its own inner content yields build "2.2" and the German row. -/
theorem tab_value_lookup_c2 :
    extract_tabitems_with_content C2DOC = [("A", "L1", C2INNER1), ("A", "L2", C2INNER2)]
    ∧ valueSearch ("A") C2DOC = some C2INNER1
    ∧ parse_windows_versions C2DOC =
        [⟨"A", "L1", "1.1", [⟨"English", "x64", "f1.iso", "https://u/1"⟩]⟩,
         ⟨"A", "L2", "1.1", [⟨"English", "x64", "f1.iso", "https://u/1"⟩]⟩]
    ∧ extract_build_number C2INNER2 = "2.2"
    ∧ extract_markdown_table_data C2INNER2 = [⟨"German", "x86", "f2.iso", "https://u/2"⟩] :=
  ⟨by decide, by decide, by decide, by decide, by decide⟩

theorem headingSectionStep_eq_append (versions : List VersionRecord)
    (ts : List Char × List Char) :
    headingSectionStep versions ts = versions ++ headingSectionSpec ts := by
  cases hdl : extract_markdown_table_data ts.2.asString with
  | nil => simp [headingSectionStep, headingSectionSpec, hdl]
  | cons a l => simp [headingSectionStep, headingSectionSpec, hdl]

theorem parse_headings_eq (content : String) :
    parse_headings_versions content =
      (sectionsFrom content.data (findHeadings content)).flatMap headingSectionSpec := by
  unfold parse_headings_versions
  rw [foldl_append_bind headingSectionStep headingSectionSpec headingSectionStep_eq_append]
  simp

/-- Claim C4: whenever the tab-block strategy yields zero VersionRecords, the
Version Parser applies the heading strategy: the document is split at H2
headings (`findHeadings` / `sectionsFrom`), each heading section with at
least one extracted download row yields exactly one VersionRecord whose
version_name and version_label both equal the heading text, and a section
with zero extracted rows yields no record (`headingSectionSpec`). -/
theorem heading_fallback_c4 (content : String)
    (h : windows_tab_versions content = []) :
    parse_windows_versions content =
      (sectionsFrom content.data (findHeadings content)).flatMap headingSectionSpec := by
  simp only [parse_windows_versions, h, List.isEmpty_nil, ite_true]
  exact parse_headings_eq content

set_option maxRecDepth 100000 in
/-- Witness for C4 at the concrete tab-free document `C4DOC`. -/
theorem heading_fallback_c4_w :
    parse_windows_versions C4DOC =
      (sectionsFrom C4DOC.data (findHeadings C4DOC)).flatMap headingSectionSpec :=
  heading_fallback_c4 C4DOC (by decide)

set_option maxRecDepth 400000 in
/-- Claim C5 (counterexample): in `C5DOC` the only tab block has value
"Other Versions" and contains a valid download table; the tab-block strategy
skips it, so the whole-document heading fallback runs and emits a
VersionRecord whose downloads are exactly the excluded tab's table row — the
excluded tab's inner content does contribute to the Version Parser's output,
contradicting the claim as stated. -/
theorem other_versions_resurfaced_c5 :
    extract_tabitems_with_content C5DOC = [("Other Versions", "Misc", C5INNER)]
    ∧ strIn ("Other Versions") ("Other Versions") = true
    ∧ windows_tab_versions C5DOC = []
    ∧ parse_windows_versions C5DOC =
        [⟨"Misc", "Misc", "Unknown", [⟨"English", "x64", "o.iso", "https://u/o"⟩]⟩]
    ∧ extract_markdown_table_data C5INNER = [⟨"English", "x64", "o.iso", "https://u/o"⟩] :=
  ⟨by decide, by decide, by decide, by decide, by decide⟩

theorem foldl_invariant {α β : Type} (step : List β → α → List β) (P : β → Prop)
    (hstep : ∀ acc x, (∀ p ∈ acc, P p) → ∀ p ∈ step acc x, P p) :
    ∀ (l : List α) (acc : List β), (∀ p ∈ acc, P p) → ∀ p ∈ l.foldl step acc, P p := by
  intro l
  induction l with
  | nil => intro acc hacc; exact hacc
  | cons x t ih => intro acc hacc; exact ih (step acc x) (hstep acc x hacc)

theorem windowsTabStep_no_other (content : String) (acc : List VersionRecord)
    (vl : String × String × String)
    (hacc : ∀ p ∈ acc, strIn ("Other Versions") p.version_name = false
      ∧ strIn ("Other Versions") p.version_label = false) :
    ∀ p ∈ windowsTabStep content acc vl,
      strIn ("Other Versions") p.version_name = false
      ∧ strIn ("Other Versions") p.version_label = false := by
  intro p hp
  simp only [windowsTabStep] at hp
  split at hp
  · exact hacc p hp
  · next hov =>
    rw [Bool.or_eq_true, not_or, Bool.not_eq_true, Bool.not_eq_true] at hov
    split at hp
    · exact hacc p hp
    · split at hp
      · exact hacc p hp
      · rcases List.mem_append.mp hp with hmem | hmem
        · exact hacc p hmem
        · simp only [List.mem_singleton] at hmem
          subst hmem
          exact ⟨hov.1, hov.2⟩

/-- Claim C5 (amended): a tab block whose value or label contains
"Other Versions" is skipped by the tab-block strategy, so no VersionRecord
produced by that strategy carries "Other Versions" in its version_name or
version_label; however (see `other_versions_resurfaced_c5` and
`tab_value_lookup_c2`) when the tab strategy yields zero records, the heading
fallback scans the whole document and may still emit the excluded tab's inner
table, so the exclusion holds for the tab path only, not for the full Version
Parser output. -/
theorem other_versions_tab_path_c5 (content : String) (v : VersionRecord)
    (h : v ∈ windows_tab_versions content) :
    strIn ("Other Versions") v.version_name = false
    ∧ strIn ("Other Versions") v.version_label = false := by
  unfold windows_tab_versions at h
  exact foldl_invariant (windowsTabStep content) _
    (windowsTabStep_no_other content) _ [] (by simp) v h

set_option maxRecDepth 400000 in
/-- Witness for the amended C5 at the concrete one-tab document `C5WDOC`. -/
theorem other_versions_tab_path_c5_w :
    strIn ("Other Versions") C5WREC.version_name = false
    ∧ strIn ("Other Versions") C5WREC.version_label = false :=
  other_versions_tab_path_c5 C5WDOC C5WREC (by decide)

theorem mem_dictSet {α : Type} {d : List (String × α)} {k : String} {v : α}
    {p : String × α} (hp : p ∈ dictSet d k v) : p = (k, v) ∨ p ∈ d := by
  induction d with
  | nil =>
    simp only [dictSet, List.mem_singleton] at hp
    exact Or.inl hp
  | cons e t ih =>
    simp only [dictSet] at hp
    split at hp
    · rcases List.mem_cons.mp hp with h | h
      · exact Or.inl h
      · exact Or.inr (List.mem_cons_of_mem e h)
    · rcases List.mem_cons.mp hp with h | h
      · exact Or.inr (h ▸ List.mem_cons_self e t)
      · rcases ih h with h2 | h2
        · exact Or.inl h2
        · exact Or.inr (List.mem_cons_of_mem e h2)

theorem headingSectionStep_downloads (acc : List VersionRecord)
    (ts : List Char × List Char) (hacc : ∀ p ∈ acc, p.downloads ≠ []) :
    ∀ p ∈ headingSectionStep acc ts, p.downloads ≠ [] := by
  intro p hp
  simp only [headingSectionStep] at hp
  split at hp
  · exact hacc p hp
  · next hne =>
    rcases List.mem_append.mp hp with h | h
    · exact hacc p h
    · simp only [List.mem_singleton] at h
      subst h
      simpa [List.isEmpty_iff] using hne

theorem windowsTabStep_downloads (content : String) (acc : List VersionRecord)
    (vl : String × String × String) (hacc : ∀ p ∈ acc, p.downloads ≠ []) :
    ∀ p ∈ windowsTabStep content acc vl, p.downloads ≠ [] := by
  intro p hp
  simp only [windowsTabStep] at hp
  split at hp
  · exact hacc p hp
  · split at hp
    · exact hacc p hp
    · split at hp
      · exact hacc p hp
      · next hne =>
        rcases List.mem_append.mp hp with h | h
        · exact hacc p h
        · simp only [List.mem_singleton] at h
          subst h
          simpa [List.isEmpty_iff] using hne

theorem officeTabStep_downloads (acc : List VersionRecord)
    (ti : String × String × String) (hacc : ∀ p ∈ acc, p.downloads ≠ []) :
    ∀ p ∈ officeTabStep acc ti, p.downloads ≠ [] := by
  intro p hp
  simp only [officeTabStep] at hp
  split at hp
  · exact hacc p hp
  · next hne =>
    rcases List.mem_append.mp hp with h | h
    · exact hacc p h
    · simp only [List.mem_singleton] at h
      subst h
      simpa [List.isEmpty_iff] using hne

theorem officeTabVersions_downloads (sectionText : String) :
    ∀ p ∈ officeTabVersions sectionText, p.downloads ≠ [] := by
  unfold officeTabVersions
  exact foldl_invariant officeTabStep _ officeTabStep_downloads _ [] (by simp)

theorem officeSectionStep_downloads (acc : List (String × List VersionRecord))
    (cs : List Char × List Char)
    (hacc : ∀ p ∈ acc, ∀ v ∈ p.2, v.downloads ≠ []) :
    ∀ p ∈ officeSectionStep acc cs, ∀ v ∈ p.2, v.downloads ≠ [] := by
  intro p hp
  simp only [officeSectionStep] at hp
  split at hp
  · exact hacc p hp
  · rcases mem_dictSet hp with h | h
    · subst h
      intro v hv
      exact officeTabVersions_downloads cs.2.asString v hv
    · exact hacc p h

/-- Claim C6: every VersionRecord in any Version Parser output — the
tab-block path and heading fallback of `parse_windows_versions`, the pure
heading path `parse_headings_versions`, and every category of
`parse_office_sections` — has a non-empty downloads list; a section whose
download extraction yields zero records is never included. -/
theorem nonempty_downloads_c6 (content : String) (v : VersionRecord) :
    (v ∈ parse_windows_versions content → v.downloads ≠ [])
    ∧ (v ∈ parse_headings_versions content → v.downloads ≠ [])
    ∧ (∀ cat vs, (cat, vs) ∈ parse_office_sections content → v ∈ vs → v.downloads ≠ []) := by
  have hhead : ∀ w ∈ parse_headings_versions content, w.downloads ≠ [] := by
    unfold parse_headings_versions
    exact foldl_invariant headingSectionStep _ headingSectionStep_downloads _ [] (by simp)
  have htab : ∀ w ∈ windows_tab_versions content, w.downloads ≠ [] := by
    unfold windows_tab_versions
    exact foldl_invariant (windowsTabStep content) _ (windowsTabStep_downloads content) _ [] (by simp)
  refine ⟨?_, fun h => hhead v h, ?_⟩
  · intro h
    simp only [parse_windows_versions] at h
    split at h
    · exact hhead v h
    · exact htab v h
  · intro cat vs hvs hv
    have hoffice : ∀ p ∈ parse_office_sections content, ∀ w ∈ p.2, w.downloads ≠ [] := by
      unfold parse_office_sections
      exact foldl_invariant officeSectionStep _ officeSectionStep_downloads _ [] (by simp)
    exact hoffice (cat, vs) hvs v hv

set_option maxRecDepth 400000 in
/-- Witness for C6 at the concrete one-tab document `C6DOC`. -/
theorem nonempty_downloads_c6_w : C6REC.downloads ≠ [] :=
  (nonempty_downloads_c6 C6DOC C6REC).1 (by decide)

set_option maxRecDepth 400000 in
theorem distinct_categories :
    ∀ g ∈ MD_FILES, ∀ f ∈ MD_FILES, g ≠ f → categoryOf g ≠ categoryOf f := by decide

theorem foldl_filter_fixpoint {α β : Type} [BEq α] [LawfulBEq α] (step : β → α → β) (x0 : α)
    (h : ∀ acc, step acc x0 = acc) :
    ∀ (l : List α) (acc : β), l.foldl step acc = (l.filter (fun y => y != x0)).foldl step acc := by
  intro l
  induction l with
  | nil => intro acc; rfl
  | cons y t ih =>
    intro acc
    by_cases hy : y = x0
    · subst hy
      simp only [List.foldl_cons, h, List.filter_cons, bne_self_eq_false, ite_false,
        Bool.false_eq_true, if_false]
      exact ih acc
    · have hb : (y != x0) = true := bne_iff_ne.mpr hy
      simp only [List.foldl_cons, List.filter_cons, hb, if_true, ite_true]
      exact ih (step acc y)

theorem windowsFold_key_absent (fetch : String → Except String String) (k : String) :
    ∀ (l : List String), (∀ g ∈ l, (∃ e, fetch g = Except.error e) ∨ categoryOf g ≠ k) →
    ∀ (acc : List (String × List VersionRecord)), (∀ vs, (k, vs) ∉ acc) →
    ∀ vs, (k, vs) ∉ l.foldl (windowsFoldStep fetch) acc := by
  intro l
  induction l with
  | nil => intro _ acc hacc; exact hacc
  | cons g t ih =>
    intro hl acc hacc
    apply ih (fun y hy => hl y (List.mem_cons_of_mem g hy))
    intro vs hvs
    rcases hl g (List.mem_cons_self g t) with ⟨e, he⟩ | hne
    · simp only [windowsFoldStep, he] at hvs
      exact hacc vs hvs
    · simp only [windowsFoldStep] at hvs
      split at hvs
      · exact hacc vs hvs
      · split at hvs
        · exact hacc vs hvs
        · rcases mem_dictSet hvs with heq | hmem
          · rw [Prod.mk.injEq] at heq
            exact hne heq.1.symm
          · exact hacc vs hmem

/-- Claim C7: a fetch failure for a single Windows document adds no entry for
that document's category (no partial or garbage entry), the run continues as
if that document were absent from the list, and a failure on the Office
document leaves the already-collected catalog (in particular all
windows_versions entries) unchanged. -/
theorem failure_containment_c7 (fetch : String → Except String String)
    (ofetch : Except String String) (now : String) (md_file : String) (e : String)
    (hmem : md_file ∈ MD_FILES) (herr : fetch md_file = Except.error e) :
    (∀ vs, (categoryOf md_file, vs) ∉ (scrape_all_windows_versions fetch now).windows_versions)
    ∧ (scrape_all_windows_versions fetch now).windows_versions
        = (MD_FILES.filter (fun g => g != md_file)).foldl (windowsFoldStep fetch) []
    ∧ (∀ e2, ofetch = Except.error e2 →
        scrape_office_versions ofetch (scrape_all_windows_versions fetch now)
          = scrape_all_windows_versions fetch now) := by
  refine ⟨?_, ?_, ?_⟩
  · intro vs
    show (categoryOf md_file, vs) ∉ MD_FILES.foldl (windowsFoldStep fetch) []
    apply windowsFold_key_absent fetch (categoryOf md_file) MD_FILES ?_ [] (by simp) vs
    intro g hg
    by_cases hgf : g = md_file
    · exact Or.inl ⟨e, hgf ▸ herr⟩
    · exact Or.inr (distinct_categories g hg md_file hmem hgf)
  · show MD_FILES.foldl (windowsFoldStep fetch) [] = _
    exact foldl_filter_fixpoint (windowsFoldStep fetch) md_file
      (fun acc => by simp only [windowsFoldStep, herr]) MD_FILES []
  · intro e2 he2
    rw [he2]
    rfl

/-- Witness for C7: with `C7FETCH` failing on the Windows 11 document and the
Office fetch failing, the Office step leaves the catalog unchanged. -/
theorem failure_containment_c7_w :
    scrape_office_versions (Except.error ("off")) (scrape_all_windows_versions C7FETCH ("t"))
      = scrape_all_windows_versions C7FETCH ("t") :=
  (failure_containment_c7 C7FETCH (Except.error ("off")) ("t") ("windows_11_links.md") ("boom")
    (by decide) (by rfl)).2.2 ("off") rfl

/-- Claim C9: the parsing pipeline is deterministic in the fetched contents —
two runs over identical fetched documents produce identical catalogs (same
category keys, VersionRecords and DownloadRecords in the same order),
differing at most in the last_updated timestamp.  Formally, the catalog of a
run with timestamp n1 is the catalog of a run with timestamp n2 with only its
last_updated field replaced. -/
theorem determinism_c9 (fetch : String → Except String String)
    (ofetch : Except String String) (n1 n2 : String) :
    run_scraper fetch ofetch n1 = { run_scraper fetch ofetch n2 with last_updated := n1 } := by
  cases ofetch with
  | error e => rfl
  | ok content =>
    simp only [run_scraper, scrape_office_versions, scrape_all_windows_versions]
    by_cases hc : (parse_office_sections content).isEmpty = true
    · simp only [if_pos hc]
    · simp only [if_neg hc]

theorem exists_of_mem_findSome {α β : Type} (f : α → Option β) :
    ∀ (l : List α) (b : β), l.findSome? f = some b → ∃ a, a ∈ l ∧ f a = some b := by
  intro l
  induction l with
  | nil => intro b h; simp [List.findSome?] at h
  | cons x t ih =>
    intro b h
    rw [List.findSome?_cons] at h
    cases hfx : f x with
    | some v =>
      rw [hfx] at h
      refine ⟨x, List.mem_cons_self x t, ?_⟩
      rw [hfx]
      simpa using h
    | none =>
      rw [hfx] at h
      rcases ih b h with ⟨a, ha, hfa⟩
      exact ⟨a, List.mem_cons_of_mem x ha, hfa⟩

theorem foldl_invariant_mem {α β : Type} (step : List β → α → List β) (P : β → Prop)
    (S : List α) (hstep : ∀ acc x, x ∈ S → (∀ p ∈ acc, P p) → ∀ p ∈ step acc x, P p) :
    ∀ (l : List α), (∀ x ∈ l, x ∈ S) → ∀ (acc : List β), (∀ p ∈ acc, P p) →
      ∀ p ∈ l.foldl step acc, P p := by
  intro l
  induction l with
  | nil => intro _ acc hacc; exact hacc
  | cons x t ih =>
    intro hsub acc hacc
    exact ih (fun y hy => hsub y (List.mem_cons_of_mem x hy)) (step acc x)
      (hstep acc x (hsub x (List.mem_cons_self x t)) hacc)

theorem isPrefixOf_append_self {α : Type} [BEq α] [LawfulBEq α] :
    ∀ (l r : List α), l.isPrefixOf (l ++ r) = true := by
  intro l r
  induction l with
  | nil => simp [List.isPrefixOf]
  | cons x t ih => simp [List.isPrefixOf, ih]

theorem mem_take_takeWhile (p : Char → Bool) :
    ∀ (l : List Char) (n : Nat), n ≤ (l.takeWhile p).length → ∀ c ∈ l.take n, p c = true := by
  intro l
  induction l with
  | nil => intro n _ c hc; simp at hc
  | cons x t ih =>
    intro n hn c hc
    cases n with
    | zero => simp at hc
    | succ m =>
      cases hx : p x with
      | false =>
        rw [List.takeWhile_cons, hx] at hn
        simp at hn
      | true =>
        rw [List.takeWhile_cons, hx] at hn
        simp only [ite_true, if_true, List.length_cons, Nat.succ_le_succ_iff] at hn
        rw [List.take_succ_cons] at hc
        rcases List.mem_cons.mp hc with heq | hmem
        · subst heq; exact hx
        · exact ih m hn c hmem

theorem digit_not_pyspace (c : Char) (h : c.isDigit = true) : isPySpace c = false := by
  by_contra hcon
  rw [Bool.not_eq_false] at hcon
  simp only [isPySpace, Bool.or_eq_true, beq_iff_eq] at hcon
  rcases hcon with ((((h1 | h1) | h1) | h1) | h1) | h1 <;> subst h1 <;>
    exact absurd h (by decide)

theorem takeWhile_ws_append (w d : List Char) (hw : ∀ c ∈ w, isPySpace c = true)
    (hd : ∀ x xs, d = x :: xs → isPySpace x = false) :
    (w ++ d).takeWhile isPySpace = w := by
  induction w with
  | nil =>
    cases d with
    | nil => rfl
    | cons x xs => simp [List.takeWhile_cons, hd x xs rfl]
  | cons y yt ih =>
    have hy : isPySpace y = true := hw y (List.mem_cons_self y yt)
    simp only [List.cons_append, List.takeWhile_cons, hy, ite_true, if_true]
    rw [ih (fun c hc => hw c (List.mem_cons_of_mem y hc))]

theorem scanMatches_sound (matcher : List Char → Option (List Char × Nat)) :
    ∀ (fuel : Nat) (s : List Char) (pos : Nat) (ls : Bool) (g : List Char) (a b : Nat),
      (g, a, b) ∈ scanMatches matcher fuel s pos ls →
      ∃ t len, matcher t = some (g, len) := by
  intro fuel
  induction fuel with
  | zero =>
    intro s pos ls g a b h
    simp [scanMatches] at h
  | succ n ih =>
    intro s pos ls g a b h
    cases s with
    | nil => simp [scanMatches] at h
    | cons c t =>
      simp only [scanMatches] at h
      cases hif : (if ls then matcher (c :: t) else none) with
      | some gl =>
        simp only [hif] at h
        rcases List.mem_cons.mp h with heq | hmem
        · cases ls with
          | false => simp at hif
          | true =>
            rw [if_pos rfl] at hif
            refine ⟨c :: t, gl.2, ?_⟩
            rw [hif]
            rw [Prod.mk.injEq] at heq
            rw [heq.1]
        · exact ih _ _ _ g a b hmem
      | none =>
        simp only [hif] at h
        exact ih t (pos + 1) (c == '\n') g a b h

theorem sectionsFrom_fst (cs : List Char) :
    ∀ (hs : List (List Char × Nat × Nat)) (p : List Char × List Char),
      p ∈ sectionsFrom cs hs → ∃ a b, (p.1, a, b) ∈ hs := by
  intro hs
  induction hs with
  | nil => intro p hp; simp [sectionsFrom] at hp
  | cons h rest ih =>
    intro p hp
    simp only [sectionsFrom] at hp
    rcases List.mem_cons.mp hp with heq | hmem
    · refine ⟨h.2.1, h.2.2, ?_⟩
      rw [heq]
      exact List.mem_cons_self h rest
    · rcases ih p hmem with ⟨a, b, hab⟩
      exact ⟨a, b, List.mem_cons_of_mem h hab⟩

theorem officeHeadMatchAt_shape (s : List Char) (g : List Char) (len : Nat)
    (h : officeHeadMatchAt s = some (g, len)) :
    ∃ w d, g = ("Office".data) ++ w ++ d ∧ w ≠ [] ∧ (∀ c ∈ w, isPySpace c = true)
      ∧ d.length = 4 ∧ (∀ c ∈ d, c.isDigit = true) := by
  cases s with
  | nil => simp [officeHeadMatchAt] at h
  | cons c1 s1 =>
    cases s1 with
    | nil => simp [officeHeadMatchAt] at h
    | cons c2 rest =>
      simp only [officeHeadMatchAt] at h
      split at h
      · split at h
        · exact Option.noConfusion h
        · obtain ⟨dk, hdkm, hdk⟩ := exists_of_mem_findSome _ _ _ h
          split at hdk
          · split at hdk
            · exact Option.noConfusion hdk
            · next hw2 =>
              obtain ⟨dk2, hdk2m, hdk2⟩ := exists_of_mem_findSome _ _ _ hdk
              split at hdk2
              · next hds =>
                obtain ⟨dv, hdvm, hdv⟩ := exists_of_mem_findSome _ _ _ hdk2
                split at hdv
                · rw [Option.some.injEq, Prod.mk.injEq] at hdv
                  obtain ⟨hg, -⟩ := hdv
                  subst hg
                  refine ⟨_, _, rfl, ?_, ?_, hds.1, fun c hc => List.all_eq_true.mp hds.2 c hc⟩
                  · -- the whitespace run is non-empty: dk2 < w2
                    have hlt : dk2 < _ := List.mem_range.mp hdk2m
                    rw [Ne, List.take_eq_nil_iff]
                    rintro (h0 | hnil)
                    · omega
                    · rw [hnil] at hw2
                      simp at hw2
                  · exact mem_take_takeWhile isPySpace _ _ (by
                      have hlt : dk2 < _ := List.mem_range.mp hdk2m
                      omega)
                · exact Option.noConfusion hdv
              · exact Option.noConfusion hdk2
          · exact Option.noConfusion hdk
      · exact Option.noConfusion h

theorem data_asString (l : List Char) : (l.asString).data = l := rfl

theorem stripChars_office (w d : List Char) (_hw : ∀ c ∈ w, isPySpace c = true)
    (hd_ne : d ≠ []) (hd : ∀ c ∈ d, c.isDigit = true) :
    stripChars (("Office".data) ++ w ++ d) = ("Office".data) ++ w ++ d := by
  unfold stripChars
  have hfront : (("Office".data) ++ w ++ d).dropWhile isPySpace
      = ("Office".data) ++ w ++ d := by
    show (('O' :: (("ffice".data) ++ w ++ d)).dropWhile isPySpace) = _
    rw [List.dropWhile_cons, if_neg (by decide)]
    rfl
  have hlast : ∃ x xs, (("Office".data) ++ w ++ d).reverse = x :: xs ∧ x.isDigit = true := by
    cases hdr : d.reverse with
    | nil => exact absurd (List.reverse_eq_nil_iff.mp hdr) hd_ne
    | cons x xs =>
      have hx : x ∈ d := by
        have hxr : x ∈ d.reverse := by rw [hdr]; exact List.mem_cons_self x xs
        exact List.mem_reverse.mp hxr
      refine ⟨x, xs ++ (("Office".data) ++ w).reverse, ?_, hd x hx⟩
      rw [List.reverse_append, hdr]
      rfl
  rw [hfront]
  obtain ⟨x, xs, hxr, hxd⟩ := hlast
  rw [hxr, List.dropWhile_cons, if_neg (by rw [digit_not_pyspace x hxd]; exact Bool.false_ne_true)]
  rw [← hxr, List.reverse_reverse]

theorem isOfficeYearTitle_shape (w d : List Char) (hw_ne : w ≠ [])
    (hw : ∀ c ∈ w, isPySpace c = true) (hd4 : d.length = 4)
    (hd : ∀ c ∈ d, c.isDigit = true) :
    isOfficeYearTitle ((("Office".data) ++ w ++ d).asString) = true := by
  have hd_ne : d ≠ [] := by
    intro hnil
    rw [hnil] at hd4
    simp at hd4
  have hdl : dropLit ("Office".data) (("Office".data) ++ w ++ d) = some (w ++ d) := by
    unfold dropLit
    rw [List.append_assoc, if_pos (isPrefixOf_append_self _ _), List.drop_left]
  have hdhead : ∀ x xs, d = x :: xs → isPySpace x = false := by
    intro x xs hxx
    exact digit_not_pyspace x (hd x (by rw [hxx]; exact List.mem_cons_self x xs))
  have htw : (w ++ d).takeWhile isPySpace = w := takeWhile_ws_append w d hw hdhead
  have h1 : w.isEmpty = false := by
    cases w with
    | nil => exact absurd rfl hw_ne
    | cons y yt => rfl
  unfold isOfficeYearTitle
  simp only [data_asString, hdl, htw, List.drop_left, h1, hd4]
  simp [List.all_eq_true.mpr hd]

theorem officeSections_shape (content : String) (sec : List Char × List Char)
    (hsec : sec ∈ officeSections content) :
    isOfficeYearTitle ((stripChars sec.1).asString) = true := by
  obtain ⟨a, b, hab⟩ := sectionsFrom_fst content.data _ sec hsec
  rw [findOfficeHeadings] at hab
  obtain ⟨t, len, ht⟩ := scanMatches_sound officeHeadMatchAt _ _ _ _ sec.1 a b hab
  obtain ⟨w, d, hg, hw_ne, hw, hd4, hd⟩ := officeHeadMatchAt_shape t sec.1 len ht
  have hd_ne : d ≠ [] := by
    intro hnil
    rw [hnil] at hd4
    simp at hd4
  rw [hg, stripChars_office w d hw hd_ne hd]
  exact isOfficeYearTitle_shape w d hw_ne hw hd4 hd

theorem officeSectionStep_shape (content : String)
    (acc : List (String × List VersionRecord)) (cs : List Char × List Char)
    (hcs : cs ∈ officeSections content)
    (hacc : ∀ p ∈ acc, isOfficeYearTitle p.1 = true
      ∧ ∃ sec, sec ∈ officeSections content ∧ p.1 = (stripChars sec.1).asString
        ∧ p.2 = officeTabVersions sec.2.asString ∧ p.2 ≠ []) :
    ∀ p ∈ officeSectionStep acc cs, isOfficeYearTitle p.1 = true
      ∧ ∃ sec, sec ∈ officeSections content ∧ p.1 = (stripChars sec.1).asString
        ∧ p.2 = officeTabVersions sec.2.asString ∧ p.2 ≠ [] := by
  intro p hp
  simp only [officeSectionStep] at hp
  split at hp
  · exact hacc p hp
  · next hne =>
    rcases mem_dictSet hp with heq | hmem
    · subst heq
      refine ⟨officeSections_shape content cs hcs, cs, hcs, rfl, rfl, ?_⟩
      simpa [List.isEmpty_iff] using hne
    · exact hacc p hmem

/-- Claim C8: every entry of the Office parser's output is stored under a
category key equal to the (stripped) heading text of an `## Office <year>`
heading — the content is split only at headings of the form `Office`,
whitespace, four digits (`isOfficeYearTitle`) — and its version list is
produced by applying the tab-block strategy (`officeTabVersions`, which uses
`extract_tabitems_with_content`, never the heading fallback) to that
section's own text, kept only when non-empty. -/
theorem office_sections_c8 (content : String) (cat : String) (vs : List VersionRecord)
    (h : (cat, vs) ∈ parse_office_sections content) :
    isOfficeYearTitle cat = true
    ∧ ∃ sec, sec ∈ officeSections content ∧ cat = (stripChars sec.1).asString
        ∧ vs = officeTabVersions sec.2.asString ∧ vs ≠ [] := by
  unfold parse_office_sections at h
  exact foldl_invariant_mem officeSectionStep
    (fun p => isOfficeYearTitle p.1 = true ∧ ∃ sec, sec ∈ officeSections content
      ∧ p.1 = (stripChars sec.1).asString ∧ p.2 = officeTabVersions sec.2.asString ∧ p.2 ≠ [])
    (officeSections content) (officeSectionStep_shape content)
    (officeSections content) (fun x hx => hx) [] (by simp) (cat, vs) h

set_option maxRecDepth 400000 in
/-- Witness for C8 at the concrete Office document `C8DOC`. -/
theorem office_sections_c8_w :
    isOfficeYearTitle ("Office 2016") = true
    ∧ ∃ sec, sec ∈ officeSections C8DOC ∧ "Office 2016" = (stripChars sec.1).asString
        ∧ C8VS = officeTabVersions sec.2.asString ∧ C8VS ≠ [] :=
  office_sections_c8 C8DOC ("Office 2016") C8VS (by decide)
